import Mathlib

/-!
Shallow embedding of `mad_adders.py`, a small genetic-algorithm framework
evolving digit-wise addition algorithms.

Modelling conventions:
* Python's global random generator is modelled as a stream `g : Nat → Nat`
  together with a running counter `k : Nat`; each call to `random.choice` on a
  sequence of length `n` reads `g k % n` as the chosen index and advances the
  counter.  `random.uniform(0, 1) > 0.25` (probability 3/4) is modelled by the
  event `g k % 4 ≠ 0`.  All theorems quantify over every stream, hence over
  every possible sequence of random outcomes.
* Python numbers appearing in a candidate's output sequence are modelled as
  rationals (`ℚ`): true division `x / y` of digits is exact division, raising
  (modelled as `none`) exactly when `y = 0`.
* A raised exception is modelled by `Option`: `none` propagates like an
  uncaught exception and is converted to the fixed 999 penalty by the
  per-problem `try/except` of `candidate_score`.
-/

namespace MadAdders

/-- Source `list_to_int(x) = sum([10**i * x[i] for i in range(len(x))])`. -/
def list_to_int {R : Type} [Semiring R] (x : List R) : R :=
  ((List.range x.length).map fun i => 10 ^ i * x.getD i 0).sum

/-- Source `list_sum(a, b) = list_to_int(a) + list_to_int(b)`. -/
def list_sum (a b : List Nat) : Nat :=
  list_to_int a + list_to_int b

/-- Source `generate_problem(min_size, max_size)`: length drawn from
`range(min_size, max_size)`, digits of `a` from `range(10)`, digits of `b` as
`choice(range(10)) % (10 - a[i])`.  `choice` on an empty range (when
`max_size ≤ min_size`) raises, modelled by `none`. -/
def generate_problem (min_size max_size : Nat) (g : Nat → Nat) :
    Option (List Nat × List Nat × Nat) :=
  if max_size ≤ min_size then none
  else
    let size := min_size + g 0 % (max_size - min_size)
    let a := (List.range size).map fun i => g (1 + i) % 10
    let b := (List.range size).map fun i => (g (1 + size + i) % 10) % (10 - a.getD i 0)
    some (a, b, list_sum a b)

/-- The operation gene pool: `add`, `mult`, `div`, `exp`. -/
inductive Op : Type
  | add
  | mult
  | div
  | exp
  deriving DecidableEq, Fintype

/-- The accumulator gene pool: `append`, `prepend`, `replace`, `insert_rand`. -/
inductive Accumulator : Type
  | append
  | prepend
  | replace
  | insert_rand
  deriving DecidableEq, Fintype

/-- The chooser gene pool: `len`, `rand_in_len`, `zero`. -/
inductive Chooser : Type
  | len
  | rand_in_len
  | zero
  deriving DecidableEq, Fintype

def BINARY_OPERATIONS : List Op := [.add, .mult, .div, .exp]

def ACCUMULATORS : List Accumulator := [.append, .prepend, .replace, .insert_rand]

def CHOOSERS : List Chooser := [.len, .rand_in_len, .zero]

/-- Applying an operation gene to two digits; `div` raises (`none`) exactly on a
zero divisor, the other operations are total. -/
def applyOp : Op → Nat → Nat → Option ℚ
  | .add, x, y => some ((x : ℚ) + y)
  | .mult, x, y => some ((x : ℚ) * y)
  | .div, x, y => if y = 0 then none else some ((x : ℚ) / y)
  | .exp, x, y => some ((x : ℚ) ^ y)

/-- Applying an accumulator gene; `insert_rand` draws a position in
`range(len(prev) + 1)` (never empty, so it never raises). -/
def applyAccumulator : Accumulator → List ℚ → ℚ → (Nat → Nat) → Nat → List ℚ × Nat
  | .append, prev, new, _, k => (prev ++ [new], k)
  | .prepend, prev, new, _, k => ([new] ++ prev, k)
  | .replace, _, new, _, k => ([new], k)
  | .insert_rand, prev, new, g, k =>
      (prev.take (g k % (prev.length + 1)) ++ [new] ++ prev.drop (g k % (prev.length + 1)),
       k + 1)

/-- Applying a chooser gene to the sequence `x`; `rand_in_len` is
`choice(range(len(seq)))`, which raises on an empty sequence. -/
def applyChooser : Chooser → List Nat → (Nat → Nat) → Nat → Option Nat × Nat
  | .len, x, _, k => (some x.length, k)
  | .rand_in_len, x, g, k =>
      if x.length = 0 then (none, k) else (some (g k % x.length), k + 1)
  | .zero, _, _, k => (some 0, k)

/-- The body of `loop`: `n` remaining iterations starting at index `i`,
accumulating into `z`.  Each iteration evaluates `x[i]`, `y[i]` (an
out-of-range index raises), the operation, then the accumulator. -/
def loopIter (x y : List Nat) (op : Op) (ac : Accumulator) (g : Nat → Nat) :
    Nat → Nat → List ℚ → Nat → Option (List ℚ) × Nat
  | _, 0, z, k => (some z, k)
  | i, n + 1, z, k =>
      match x[i]? with
      | none => (none, k)
      | some xi =>
          match y[i]? with
          | none => (none, k)
          | some yi =>
              match applyOp op xi yi with
              | none => (none, k)
              | some v =>
                  let r := applyAccumulator ac z v g k
                  loopIter x y op ac g (i + 1) n r.1 r.2

/-- Source `loop(x, y, op, acc, chooser)`: `z = []`, then
`for i in range(chooser(x)): z = acc(z, op(x[i], y[i]))`. -/
def loop (x y : List Nat) (op : Op) (ac : Accumulator) (ch : Chooser)
    (g : Nat → Nat) (k : Nat) : Option (List ℚ) × Nat :=
  match applyChooser ch x g k with
  | (none, k') => (none, k')
  | (some n, k') => loopIter x y op ac g 0 n [] k'

/-- A candidate genome: one gene from each pool. -/
structure Candidate where
  op : Op
  acc : Accumulator
  chooser : Chooser
  deriving DecidableEq, Fintype

/-- A problem `(a, b, answer)`. -/
abbrev Problem := List Nat × List Nat × Nat

/-- A problem as produced by `generate_problem`: equal lengths, digits in
`[0, 9]`, no carry out of any column, and the recorded answer is the sum. -/
def WellFormedProblem (p : Problem) : Prop :=
  p.1.length = p.2.1.length ∧ (∀ d ∈ p.1, d ≤ 9) ∧ (∀ d ∈ p.2.1, d ≤ 9) ∧
    (∀ i, i < p.1.length → p.1.getD i 0 + p.2.1.getD i 0 ≤ 9) ∧
    p.2.2 = list_sum p.1 p.2.1

instance (p : Problem) : Decidable (WellFormedProblem p) := by
  unfold WellFormedProblem; infer_instance

/-- The body of the `try` in `candidate_score`, for one problem: run `loop`;
a raised fault, or any produced element `> 9`, is caught by the bare `except`
and contributes the fixed 999 penalty; otherwise the problem contributes
`abs(list_to_int(alg_ans) - answer)`. -/
def problem_contrib (c : Candidate) (g : Nat → Nat) (k : Nat) (p : Problem) : ℚ × Nat :=
  match loop p.1 p.2.1 c.op c.acc c.chooser g k with
  | (none, k') => (999, k')
  | (some z, k') =>
      if z.any fun v => decide (9 < v) then (999, k')
      else (|list_to_int z - (p.2.2 : ℚ)|, k')

/-- One step of the scoring fold: add the current problem's contribution to
the running total. -/
def scoreStep (c : Candidate) (g : Nat → Nat) (acc : ℚ × Nat) (p : Problem) : ℚ × Nat :=
  (acc.1 + (problem_contrib c g acc.2 p).1, (problem_contrib c g acc.2 p).2)

/-- Source `candidate_score(algorithm, problems)`: accumulate each problem's
contribution into `score`, then return `score / len(problems)`. -/
def candidate_score (c : Candidate) (problems : List Problem) (g : Nat → Nat)
    (k : Nat) : ℚ × Nat :=
  ((problems.foldl (scoreStep c g) (0, k)).1 / (problems.length : ℚ),
   (problems.foldl (scoreStep c g) (0, k)).2)

/-- The running total of `candidate_score`, written as a recursion over the
problem list: each problem contributes in turn and evaluation always continues
with the remaining problems. -/
def runningTotal (c : Candidate) (g : Nat → Nat) : List Problem → Nat → ℚ
  | [], _ => 0
  | p :: ps, k =>
      (problem_contrib c g k p).1 + runningTotal c g ps (problem_contrib c g k p).2

/-- The counter after scoring a list of problems. -/
def runningCounter (c : Candidate) (g : Nat → Nat) : List Problem → Nat → Nat
  | [], k => k
  | p :: ps, k => runningCounter c g ps (problem_contrib c g k p).2

/-- The condition under which the `except` branch of `candidate_score` fires
for one problem: the loop raised, or the produced sequence has an element
greater than 9. -/
def evalFaultOrInvalid (c : Candidate) (g : Nat → Nat) (k : Nat) (p : Problem) : Prop :=
  (loop p.1 p.2.1 c.op c.acc c.chooser g k).1 = none ∨
    ∃ z, (loop p.1 p.2.1 c.op c.acc c.chooser g k).1 = some z ∧
      (z.any fun v => decide (9 < v)) = true

/-- The trait picker shared by the three gene positions of `repopulate`:
`if uniform(0, 1) > 0.25` (modelled by `g k % 4 ≠ 0`) the child inherits one
parent's gene (`choice([c1_gene, c2_gene])`), otherwise it mutates to a gene
chosen from the position's pool excluding both parents' genes (`choice` on an
empty list raises, modelled by `none`). -/
def pickGene {α : Type} [DecidableEq α] (pool : List α) (g1 g2 : α)
    (g : Nat → Nat) (k : Nat) : Option α × Nat :=
  if g k % 4 ≠ 0 then
    ([g1, g2][g (k + 1) % 2]?, k + 2)
  else
    ((pool.filter fun x => decide (x ∉ [g1, g2]))[g (k + 1) %
        (pool.filter fun x => decide (x ∉ [g1, g2])).length]?, k + 2)

/-- Crossover of the ordered pair `(c1, c2)` inside `repopulate`: the three
trait picks run in order; a raised fault propagates. -/
def crossover (c1 c2 : Candidate) (g : Nat → Nat) (k : Nat) : Option Candidate × Nat :=
  match pickGene BINARY_OPERATIONS c1.op c2.op g k with
  | (none, k1) => (none, k1)
  | (some op, k1) =>
      match pickGene ACCUMULATORS c1.acc c2.acc g k1 with
      | (none, k2) => (none, k2)
      | (some ac, k2) =>
          match pickGene CHOOSERS c1.chooser c2.chooser g k2 with
          | (none, k3) => (none, k3)
          | (some ch, k3) => (some ⟨op, ac, ch⟩, k3)

/-- One step of the inner loop of `repopulate`: skip the pair when
`c1 == c2`, otherwise breed a child and add it to the children set. -/
def repopStep (g : Nat → Nat) (c1 : Candidate) (st : Option (Finset Candidate) × Nat)
    (c2 : Candidate) : Option (Finset Candidate) × Nat :=
  match st with
  | (none, k) => (none, k)
  | (some ch, k) =>
      if c1 = c2 then (some ch, k)
      else
        match crossover c1 c2 g k with
        | (none, k') => (none, k')
        | (some child, k') => (some (insert child ch), k')

/-- Source `repopulate(candidates)`: `children = set(candidates)`, then for every
ordered pair of distinct candidates a child is bred and added. -/
def repopulate (cands : List Candidate) (g : Nat → Nat) (k : Nat) :
    Option (Finset Candidate) × Nat :=
  cands.foldl (fun st c1 => cands.foldl (repopStep g c1) st) (some cands.toFinset, k)

/-- Stable insertion of a scored candidate into a list sorted ascending by
score: the new entry goes before the first entry with a key not below its own,
hence after every earlier-inserted entry of equal key. -/
def insertKeyed (p : Candidate × ℚ) : List (Candidate × ℚ) → List (Candidate × ℚ)
  | [] => [p]
  | q :: l => if p.2 ≤ q.2 then p :: q :: l else q :: insertKeyed p l

/-- Stable sort of scored candidates ascending by score, modelling Python's
stable `sorted(..., key=score)`. -/
def sortKeyed : List (Candidate × ℚ) → List (Candidate × ℚ)
  | [] => []
  | p :: l => insertKeyed p (sortKeyed l)

/-- Python's `sorted` computes the key of each element once, in list order; the shared
random stream's counter is threaded through the score computations. -/
def score_keys (cands : List Candidate) (problems : List Problem) (g : Nat → Nat)
    (k : Nat) : List (Candidate × ℚ) × Nat :=
  match cands with
  | [] => ([], k)
  | c :: rest =>
      ((c, (candidate_score c problems g k).1) ::
        (score_keys rest problems g (candidate_score c problems g k).2).1,
       (score_keys rest problems g (candidate_score c problems g k).2).2)

/-- Source `sort_candidates(all_candidates, problems)`:
`sorted(all_candidates, key=score)`. -/
def sort_candidates (cands : List Candidate) (problems : List Problem)
    (g : Nat → Nat) (k : Nat) : List Candidate × Nat :=
  ((sortKeyed (score_keys cands problems g k).1).map Prod.fst,
   (score_keys cands problems g k).2)

/-- The driver's selection `best = sort_candidates(candidates, problems)[:5]`. -/
def best (cands : List Candidate) (problems : List Problem) (g : Nat → Nat)
    (k : Nat) : List Candidate :=
  ((sort_candidates cands problems g k).1).take 5

/-- The function `loopIter`, instrumented to also record every index `i` whose iteration
body is entered (i.e. for which `x[i]` is evaluated). -/
def loopIterTrace (x y : List Nat) (op : Op) (ac : Accumulator) (g : Nat → Nat) :
    Nat → Nat → List ℚ → Nat → (Option (List ℚ) × Nat) × List Nat
  | _, 0, z, k => ((some z, k), [])
  | i, n + 1, z, k =>
      match x[i]? with
      | none => ((none, k), [i])
      | some xi =>
          match y[i]? with
          | none => ((none, k), [i])
          | some yi =>
              match applyOp op xi yi with
              | none => ((none, k), [i])
              | some v =>
                  ((loopIterTrace x y op ac g (i + 1) n
                      (applyAccumulator ac z v g k).1 (applyAccumulator ac z v g k).2).1,
                   i :: (loopIterTrace x y op ac g (i + 1) n
                      (applyAccumulator ac z v g k).1 (applyAccumulator ac z v g k).2).2)

/-- The function `loop`, instrumented with the list of indices at which `x` and `y` are
indexed (or at which indexing is attempted). -/
def loop_trace (x y : List Nat) (op : Op) (ac : Accumulator) (ch : Chooser)
    (g : Nat → Nat) (k : Nat) : (Option (List ℚ) × Nat) × List Nat :=
  match applyChooser ch x g k with
  | (none, k') => ((none, k'), [])
  | (some n, k') => loopIterTrace x y op ac g 0 n [] k'

/-! ### Helper lemmas -/

lemma getD_range_map (f : Nat → Nat) (n i : Nat) (h : i < n) :
    (((List.range n).map f).getD i 0) = f i := by
  have hlen : i < ((List.range n).map f).length := by simpa using h
  rw [List.getD_eq_getElem _ _ hlen]
  simp

lemma loop_zero_chooser (a b : List Nat) (op : Op) (ac : Accumulator)
    (g : Nat → Nat) (k : Nat) :
    loop a b op ac Chooser.zero g k = (some [], k) := rfl

lemma list_to_int_nil {R : Type} [Semiring R] : list_to_int ([] : List R) = 0 := rfl

lemma problem_contrib_zero_chooser (op : Op) (ac : Accumulator) (g : Nat → Nat)
    (k : Nat) (a b : List Nat) (ans : Nat) :
    problem_contrib ⟨op, ac, Chooser.zero⟩ g k (a, b, ans) = ((ans : ℚ), k) := by
  simp only [problem_contrib, loop_zero_chooser]
  simp [list_to_int_nil, abs_of_nonpos]

lemma foldl_scoreStep (c : Candidate) (g : Nat → Nat) :
    ∀ (ps : List Problem) (s : ℚ) (k : Nat),
      ps.foldl (scoreStep c g) (s, k) =
        (s + runningTotal c g ps k, runningCounter c g ps k)
  | [], s, k => by simp [runningTotal, runningCounter]
  | p :: rest, s, k => by
      simp only [List.foldl_cons, runningTotal, runningCounter]
      rw [show scoreStep c g (s, k) p =
            (s + (problem_contrib c g k p).1, (problem_contrib c g k p).2) from rfl]
      rw [foldl_scoreStep c g rest _ _, add_assoc]

/-! ### Claim theorems -/

/-- Claim C2: for `1 ≤ min_size < max_size`, every triple returned by
`generate_problem` has equal-length digit lists with the common length in
`[min_size, max_size)`, every `a[i]` in `[0, 9]`, every `b[i]` in
`[0, 9 - a[i]]` (hence no carry), and the recorded sum equal to
`list_to_int a + list_to_int b`. -/
theorem c2_generate_problem_wellformed (min_size max_size : Nat) (g : Nat → Nat)
    (a b : List Nat) (s : Nat)
    (h1 : 1 ≤ min_size) (h2 : min_size < max_size)
    (h : generate_problem min_size max_size g = some (a, b, s)) :
    a.length = b.length ∧ min_size ≤ a.length ∧ a.length < max_size ∧
    (∀ i, i < a.length → a.getD i 0 ≤ 9) ∧
    (∀ i, i < b.length → b.getD i 0 ≤ 9 - a.getD i 0) ∧
    (∀ i, i < a.length → a.getD i 0 + b.getD i 0 ≤ 9) ∧
    s = list_to_int a + list_to_int b := by
  rw [generate_problem, if_neg (by omega)] at h
  obtain ⟨ha, hb, hs⟩ : _ ∧ _ ∧ _ := by
    injection h with h'
    injection h' with ha h''
    injection h'' with hb hs
    exact ⟨ha.symm, hb.symm, hs.symm⟩
  subst ha
  subst hb
  subst hs
  have hmod : g 0 % (max_size - min_size) < max_size - min_size :=
    Nat.mod_lt _ (by omega)
  simp only [List.length_map, List.length_range]
  have hdig9 : ∀ i, i < min_size + g 0 % (max_size - min_size) →
      ((List.range (min_size + g 0 % (max_size - min_size))).map
        fun i => g (1 + i) % 10).getD i 0 ≤ 9 := by
    intro i hi
    rw [getD_range_map _ _ _ hi]
    have := Nat.mod_lt (g (1 + i)) (show 0 < 10 by omega)
    omega
  have hbdig : ∀ i, i < min_size + g 0 % (max_size - min_size) →
      ((List.range (min_size + g 0 % (max_size - min_size))).map
        fun i => (g (1 + (min_size + g 0 % (max_size - min_size)) + i) % 10) %
          (10 - (((List.range (min_size + g 0 % (max_size - min_size))).map
            fun i => g (1 + i) % 10).getD i 0))).getD i 0 ≤
        9 - (((List.range (min_size + g 0 % (max_size - min_size))).map
          fun i => g (1 + i) % 10).getD i 0) := by
    intro i hi
    rw [getD_range_map _ _ _ hi]
    have h9 := hdig9 i hi
    have := Nat.mod_lt ((g (1 + (min_size + g 0 % (max_size - min_size)) + i)) % 10)
      (show 0 < 10 - (((List.range (min_size + g 0 % (max_size - min_size))).map
        fun i => g (1 + i) % 10).getD i 0) by omega)
    omega
  refine ⟨trivial, by omega, by omega, hdig9, hbdig, ?_, rfl⟩
  intro i hi
  have := hdig9 i hi
  have := hbdig i hi
  omega

theorem c2_witness :
    (0 : Nat) = list_to_int [0] + list_to_int [0] :=
  (c2_generate_problem_wellformed 1 2 (fun _ => 0) [0] [0] 0 (by decide) (by decide)
    (by decide)).2.2.2.2.2.2

/-- Claim C8: on the problem `A = [2,3]`, `B = [1,1]` with `Sum = 43`, the
candidate `(add, append, len)` produces `Z = [3, 4]`,
`list_to_int [3, 4] = 43`, and the problem's error contribution is `0`,
for every random stream and counter (the run is deterministic). -/
theorem c8_end_to_end_add_append_full (g : Nat → Nat) (k : Nat) :
    list_sum [2, 3] [1, 1] = 43 ∧
    (loop [2, 3] [1, 1] Op.add Accumulator.append Chooser.len g k).1 = some [3, 4] ∧
    list_to_int ([3, 4] : List ℚ) = 43 ∧
    (problem_contrib ⟨Op.add, Accumulator.append, Chooser.len⟩ g k
      ([2, 3], [1, 1], 43)).1 = 0 := by
  refine ⟨by decide, ?_, ?_, ?_⟩
  · simp [loop, loopIter, applyChooser, applyOp, applyAccumulator]
    norm_num
  · simp [list_to_int, List.range_succ]
    norm_num
  · simp [problem_contrib, loop, loopIter, applyChooser, applyOp, applyAccumulator]
    norm_num [list_to_int, List.range_succ]

/-- Claim C9: a candidate whose chooser gene is `zero` always makes the loop
return `Z = []` (no fault, integer value `0`, validity check passed), so every
problem contributes exactly its expected sum, and the candidate's score is the
mean of the expected sums of the batch, with the random counter unchanged. -/
theorem c9_zero_chooser_scores_mean (op : Op) (ac : Accumulator)
    (ps : List Problem) (g : Nat → Nat) (k : Nat) :
    list_to_int ([] : List ℚ) = 0 ∧
    (∀ (a b : List Nat) (ans : Nat) (g' : Nat → Nat) (k' : Nat),
        loop a b op ac Chooser.zero g' k' = (some [], k') ∧
        (problem_contrib ⟨op, ac, Chooser.zero⟩ g' k' (a, b, ans)).1 = (ans : ℚ)) ∧
    candidate_score ⟨op, ac, Chooser.zero⟩ ps g k =
      ((ps.map fun p => ((p.2.2 : ℚ))).sum / (ps.length : ℚ), k) := by
  refine ⟨rfl, fun a b ans g' k' =>
      ⟨loop_zero_chooser a b op ac g' k', by rw [problem_contrib_zero_chooser]⟩, ?_⟩
  have htot : ∀ (l : List Problem) (k' : Nat),
      runningTotal ⟨op, ac, Chooser.zero⟩ g l k' = (l.map fun p => ((p.2.2 : ℚ))).sum ∧
      runningCounter ⟨op, ac, Chooser.zero⟩ g l k' = k' := by
    intro l
    induction l with
    | nil => intro k'; simp [runningTotal, runningCounter]
    | cons p rest ih =>
        intro k'
        have hp : problem_contrib ⟨op, ac, Chooser.zero⟩ g k' p = ((p.2.2 : ℚ), k') :=
          problem_contrib_zero_chooser op ac g k' p.1 p.2.1 p.2.2
        simp only [runningTotal, runningCounter, hp, List.map_cons, List.sum_cons]
        exact ⟨by rw [(ih k').1], (ih k').2⟩
  rw [candidate_score, foldl_scoreStep, (htot ps k).1, (htot ps k).2, zero_add]

lemma ops_filter_pos : ∀ a b : Op,
    0 < (BINARY_OPERATIONS.filter fun x => decide (x ∉ [a, b])).length := by decide

lemma accs_filter_pos : ∀ a b : Accumulator,
    0 < (ACCUMULATORS.filter fun x => decide (x ∉ [a, b])).length := by decide

lemma choosers_filter_pos : ∀ a b : Chooser,
    0 < (CHOOSERS.filter fun x => decide (x ∉ [a, b])).length := by decide

lemma pickGene_isSome {α : Type} [DecidableEq α] (pool : List α) (g1 g2 : α)
    (g : Nat → Nat) (k : Nat)
    (hp : 0 < (pool.filter fun x => decide (x ∉ [g1, g2])).length) :
    ∃ x, (pickGene pool g1 g2 g k).1 = some x := by
  unfold pickGene
  split
  · refine ⟨_, List.getElem?_eq_getElem ?_⟩
    have : g (k + 1) % 2 < 2 := Nat.mod_lt _ (by omega)
    simpa using this
  · exact ⟨_, List.getElem?_eq_getElem (Nat.mod_lt _ hp)⟩

lemma pickGene_counter {α : Type} [DecidableEq α] (pool : List α) (g1 g2 : α)
    (g : Nat → Nat) (k : Nat) : (pickGene pool g1 g2 g k).2 = k + 2 := by
  unfold pickGene
  split <;> rfl

lemma crossover_isSome (c1 c2 : Candidate) (g : Nat → Nat) (k : Nat) :
    ∃ child, (crossover c1 c2 g k).1 = some child := by
  obtain ⟨o, ho⟩ := pickGene_isSome BINARY_OPERATIONS c1.op c2.op g k
    (ops_filter_pos c1.op c2.op)
  rcases hp1 : pickGene BINARY_OPERATIONS c1.op c2.op g k with ⟨o?, k1⟩
  rw [hp1] at ho
  simp only at ho
  subst ho
  obtain ⟨ac, hac⟩ := pickGene_isSome ACCUMULATORS c1.acc c2.acc g k1
    (accs_filter_pos c1.acc c2.acc)
  rcases hp2 : pickGene ACCUMULATORS c1.acc c2.acc g k1 with ⟨a?, k2⟩
  rw [hp2] at hac
  simp only at hac
  subst hac
  obtain ⟨ch, hch⟩ := pickGene_isSome CHOOSERS c1.chooser c2.chooser g k2
    (choosers_filter_pos c1.chooser c2.chooser)
  rcases hp3 : pickGene CHOOSERS c1.chooser c2.chooser g k2 with ⟨c?, k3⟩
  rw [hp3] at hch
  simp only at hch
  subst hch
  exact ⟨⟨o, ac, ch⟩, by simp [crossover, hp1, hp2, hp3]⟩

lemma repopStep_inv (g : Nat → Nat) (c1 : Candidate) (T : Finset Candidate)
    (st : Option (Finset Candidate) × Nat) (c2 : Candidate)
    (h : ∃ s, st.1 = some s ∧ T ⊆ s) :
    ∃ s, (repopStep g c1 st c2).1 = some s ∧ T ⊆ s := by
  obtain ⟨s0, hs0, hsub⟩ := h
  rcases st with ⟨o, k0⟩
  simp only at hs0
  subst hs0
  by_cases hc : c1 = c2
  · exact ⟨s0, by simp [repopStep, hc], hsub⟩
  · obtain ⟨child, hchild⟩ := crossover_isSome c1 c2 g k0
    rcases hcr : crossover c1 c2 g k0 with ⟨co, k'⟩
    rw [hcr] at hchild
    simp only at hchild
    subst hchild
    exact ⟨insert child s0, by simp [repopStep, hc, hcr],
      hsub.trans (Finset.subset_insert _ _)⟩

lemma foldl_repopStep_inv (g : Nat → Nat) (c1 : Candidate) (T : Finset Candidate) :
    ∀ (l : List Candidate) (st : Option (Finset Candidate) × Nat),
      (∃ s, st.1 = some s ∧ T ⊆ s) →
      ∃ s, (l.foldl (repopStep g c1) st).1 = some s ∧ T ⊆ s
  | [], st, h => h
  | c2 :: rest, st, h =>
      foldl_repopStep_inv g c1 T rest _ (repopStep_inv g c1 T st c2 h)

lemma repopulate_some_superset (cands : List Candidate) (g : Nat → Nat) (k : Nat) :
    ∃ s, (repopulate cands g k).1 = some s ∧ ∀ c ∈ cands, c ∈ s := by
  have main : ∀ (l : List Candidate) (st : Option (Finset Candidate) × Nat),
      (∃ s, st.1 = some s ∧ cands.toFinset ⊆ s) →
      ∃ s, (l.foldl (fun st c1 => cands.foldl (repopStep g c1) st) st).1 = some s ∧
        cands.toFinset ⊆ s := by
    intro l
    induction l with
    | nil => intro st h; exact h
    | cons c1 rest ih =>
        intro st h
        exact ih _ (foldl_repopStep_inv g c1 cands.toFinset cands st h)
  obtain ⟨s, hs, hsub⟩ := main cands (some cands.toFinset, k)
    ⟨cands.toFinset, rfl, Finset.Subset.refl _⟩
  exact ⟨s, hs, fun c hc => hsub (List.mem_toFinset.mpr hc)⟩

/-- Claim C3: the new population returned by `repopulate` contains every
survivor: whenever `repopulate` returns a set, every input candidate is a
member of it. -/
theorem c3_repopulate_keeps_survivors (cands : List Candidate) (g : Nat → Nat)
    (k : Nat) (s : Finset Candidate) (h : (repopulate cands g k).1 = some s) :
    ∀ c ∈ cands, c ∈ s := by
  obtain ⟨s', hs', hsub⟩ := repopulate_some_superset cands g k
  rw [h] at hs'
  cases hs'
  exact hsub

theorem c3_witness :
    (⟨Op.add, Accumulator.append, Chooser.len⟩ : Candidate) ∈
      ({⟨Op.add, Accumulator.append, Chooser.len⟩} : Finset Candidate) :=
  c3_repopulate_keeps_survivors [⟨Op.add, Accumulator.append, Chooser.len⟩]
    (fun _ => 0) 0 {⟨Op.add, Accumulator.append, Chooser.len⟩} (by decide)
    ⟨Op.add, Accumulator.append, Chooser.len⟩ (by decide)

/-- Claim C10: `repopulate` is total: each gene pool has 4, 4, resp. 3
members and at most 2 are excluded in the mutation branch, so the filtered
pool is never empty, `choice` is never called on an empty list, and
`repopulate` always returns a population. -/
theorem c10_repopulate_total (cands : List Candidate) (g : Nat → Nat) (k : Nat) :
    ∃ s, (repopulate cands g k).1 = some s := by
  obtain ⟨s, hs, _⟩ := repopulate_some_superset cands g k
  exact ⟨s, hs⟩

lemma pickGene_mutation_mem {α : Type} [DecidableEq α] (pool : List α) (g1 g2 : α)
    (g : Nat → Nat) (k : Nat) (x : α) (hmut : g k % 4 = 0)
    (h : (pickGene pool g1 g2 g k).1 = some x) :
    x ∈ pool ∧ x ≠ g1 ∧ x ≠ g2 := by
  rw [pickGene, if_neg (by simp [hmut])] at h
  simp only at h
  have hx := List.getElem?_mem h
  have := List.mem_filter.mp hx
  simpa using this

/-- Claim C4: in `repopulate`'s crossover of an ordered pair of distinct
parents, whenever the 0.25-probability mutation branch is taken for a gene
position (the `uniform(0,1) ≤ 0.25` event, modelled as `g k % 4 = 0` at that
position's draw), the chosen gene belongs to that position's full pool and
differs from both parents' genes at that position. -/
theorem c4_mutation_excludes_parents (c1 c2 : Candidate) (g : Nat → Nat) (k : Nat)
    (child : Candidate) (hne : c1 ≠ c2)
    (h : (crossover c1 c2 g k).1 = some child) :
    (g k % 4 = 0 →
      child.op ∈ BINARY_OPERATIONS ∧ child.op ≠ c1.op ∧ child.op ≠ c2.op) ∧
    (g (k + 2) % 4 = 0 →
      child.acc ∈ ACCUMULATORS ∧ child.acc ≠ c1.acc ∧ child.acc ≠ c2.acc) ∧
    (g (k + 4) % 4 = 0 →
      child.chooser ∈ CHOOSERS ∧ child.chooser ≠ c1.chooser ∧
        child.chooser ≠ c2.chooser) := by
  rcases hp1 : pickGene BINARY_OPERATIONS c1.op c2.op g k with ⟨o?, k1⟩
  have hk1 : k1 = k + 2 := by
    have := pickGene_counter BINARY_OPERATIONS c1.op c2.op g k
    rw [hp1] at this
    exact this
  rcases o? with _ | o
  · simp [crossover, hp1] at h
  rcases hp2 : pickGene ACCUMULATORS c1.acc c2.acc g k1 with ⟨a?, k2⟩
  have hk2 : k2 = k + 4 := by
    have := pickGene_counter ACCUMULATORS c1.acc c2.acc g k1
    rw [hp2] at this
    omega
  rcases a? with _ | ac
  · simp [crossover, hp1, hp2] at h
  rcases hp3 : pickGene CHOOSERS c1.chooser c2.chooser g k2 with ⟨c?, k3⟩
  rcases c? with _ | ch
  · simp [crossover, hp1, hp2, hp3] at h
  simp only [crossover, hp1, hp2, hp3] at h
  have hchild : child = ⟨o, ac, ch⟩ := (Option.some.inj h).symm
  subst hchild
  refine ⟨fun hmut => ?_, fun hmut => ?_, fun hmut => ?_⟩
  · exact pickGene_mutation_mem BINARY_OPERATIONS c1.op c2.op g k o hmut (by rw [hp1])
  · exact pickGene_mutation_mem ACCUMULATORS c1.acc c2.acc g k1 ac
      (by rw [hk1]; exact hmut) (by rw [hp2])
  · exact pickGene_mutation_mem CHOOSERS c1.chooser c2.chooser g k2 ch
      (by rw [hk2]; exact hmut) (by rw [hp3])

theorem c4_witness :
    (⟨Op.div, Accumulator.replace, Chooser.rand_in_len⟩ : Candidate).op ∈
        BINARY_OPERATIONS ∧
    (⟨Op.div, Accumulator.replace, Chooser.rand_in_len⟩ : Candidate).op ≠ Op.add ∧
    (⟨Op.div, Accumulator.replace, Chooser.rand_in_len⟩ : Candidate).op ≠ Op.mult :=
  (c4_mutation_excludes_parents ⟨Op.add, Accumulator.append, Chooser.len⟩
    ⟨Op.mult, Accumulator.prepend, Chooser.zero⟩ (fun _ => 0) 0
    ⟨Op.div, Accumulator.replace, Chooser.rand_in_len⟩ (by decide) (by decide)).1
    (by decide)

lemma loopIter_div_zero (x y : List Nat) (ac : Accumulator) (g : Nat → Nat) :
    ∀ (n i0 : Nat) (z : List ℚ) (k j : Nat), i0 ≤ j → j < i0 + n →
      y[j]? = some 0 → (loopIter x y Op.div ac g i0 n z k).1 = none := by
  intro n
  induction n with
  | zero => intro i0 z k j h1 h2 _; omega
  | succ m ih =>
      intro i0 z k j h1 h2 hy
      cases hx : x[i0]? with
      | none => simp [loopIter, hx]
      | some xi =>
          cases hyy : y[i0]? with
          | none => simp [loopIter, hx, hyy]
          | some yi =>
              by_cases hz : yi = 0
              · subst hz
                simp [loopIter, hx, hyy, applyOp]
              · have hop : applyOp Op.div xi yi = some ((xi : ℚ) / yi) := by
                  simp [applyOp, hz]
                have hij : i0 ≠ j := by
                  intro e
                  rw [← e, hyy] at hy
                  exact hz (Option.some.inj hy)
                simp only [loopIter, hx, hyy, hop]
                exact ih (i0 + 1) _ _ j (by omega) (by omega) hy

/-- Claim C7: a candidate whose operation gene is `div`, run against a problem
whose `b` has a zero digit at an index below the chooser's returned iteration
count, always contributes the 999 penalty for that problem to the running
total of `candidate_score`. -/
theorem c7_div_zero_penalty (c : Candidate) (a b : List Nat) (ans : Nat)
    (g : Nat → Nat) (k : Nat) (n j : Nat)
    (hop : c.op = Op.div)
    (hch : (applyChooser c.chooser a g k).1 = some n)
    (hj : j < n) (hbz : b[j]? = some 0) :
    (problem_contrib c g k (a, b, ans)).1 = 999 := by
  rcases hA : applyChooser c.chooser a g k with ⟨nr, k2⟩
  rw [hA] at hch
  simp only at hch
  subst hch
  have hnone : (loopIter a b c.op c.acc g 0 n [] k2).1 = none := by
    rw [hop]
    exact loopIter_div_zero a b c.acc g n 0 [] k2 j (Nat.zero_le j) (by omega) hbz
  rcases hL : loopIter a b c.op c.acc g 0 n [] k2 with ⟨res, k3⟩
  rw [hL] at hnone
  simp only at hnone
  subst hnone
  simp [problem_contrib, loop, hA, hL]

theorem c7_witness :
    (problem_contrib ⟨Op.div, Accumulator.append, Chooser.len⟩ (fun _ => 0) 0
      ([1], [0], 1)).1 = 999 :=
  c7_div_zero_penalty ⟨Op.div, Accumulator.append, Chooser.len⟩ [1] [0] 1
    (fun _ => 0) 0 1 0 rfl rfl (by decide) (by decide)

lemma mem_loopIterTrace (x y : List Nat) (op : Op) (ac : Accumulator)
    (g : Nat → Nat) :
    ∀ (n i0 : Nat) (z : List ℚ) (k j : Nat),
      j ∈ (loopIterTrace x y op ac g i0 n z k).2 → i0 ≤ j ∧ j < i0 + n := by
  intro n
  induction n with
  | zero => intro i0 z k j hj; simp [loopIterTrace] at hj
  | succ m ih =>
      intro i0 z k j hj
      cases hx : x[i0]? with
      | none =>
          simp [loopIterTrace, hx] at hj
          omega
      | some xi =>
          cases hyy : y[i0]? with
          | none =>
              simp [loopIterTrace, hx, hyy] at hj
              omega
          | some yi =>
              cases hv : applyOp op xi yi with
              | none =>
                  simp [loopIterTrace, hx, hyy, hv] at hj
                  omega
              | some v =>
                  simp only [loopIterTrace, hx, hyy, hv, List.mem_cons] at hj
                  rcases hj with hj | hj
                  · omega
                  · have := ih (i0 + 1) _ _ j hj
                    omega

lemma applyChooser_le (ch : Chooser) (x : List Nat) (g : Nat → Nat) (k : Nat)
    (n : Nat) (h : (applyChooser ch x g k).1 = some n) : n ≤ x.length := by
  cases ch with
  | len =>
      simp only [applyChooser, Option.some.injEq] at h
      omega
  | rand_in_len =>
      simp only [applyChooser] at h
      by_cases hx : x.length = 0
      · rw [if_pos hx] at h
        simp at h
      · rw [if_neg hx] at h
        simp only [Option.some.injEq] at h
        have := Nat.mod_lt (g k) (Nat.pos_of_ne_zero hx)
        omega
  | zero =>
      simp only [applyChooser, Option.some.injEq] at h
      omega

lemma loop_trace_result (x y : List Nat) (op : Op) (ac : Accumulator)
    (ch : Chooser) (g : Nat → Nat) (k : Nat) :
    (loop_trace x y op ac ch g k).1 = loop x y op ac ch g k := by
  have hiter : ∀ (n i0 : Nat) (z : List ℚ) (k' : Nat),
      (loopIterTrace x y op ac g i0 n z k').1 = loopIter x y op ac g i0 n z k' := by
    intro n
    induction n with
    | zero => intro i0 z k'; rfl
    | succ m ih =>
        intro i0 z k'
        cases hx : x[i0]? with
        | none => simp [loopIterTrace, loopIter, hx]
        | some xi =>
            cases hyy : y[i0]? with
            | none => simp [loopIterTrace, loopIter, hx, hyy]
            | some yi =>
                cases hv : applyOp op xi yi with
                | none => simp [loopIterTrace, loopIter, hx, hyy, hv]
                | some v =>
                    simp only [loopIterTrace, loopIter, hx, hyy, hv]
                    exact ih (i0 + 1) _ _
  rw [loop_trace, loop]
  rcases applyChooser ch x g k with ⟨nr, k'⟩
  cases nr with
  | none => rfl
  | some n => exact hiter n 0 [] k'

/-- Claim C6 counterexample: with `A = [1, 2]`, `B = [1]` and the `len`
chooser, the loop enters iteration index `1`, which is not below
`min (len A) (len B) = 1`: the interpreter does not bound its iteration count
by the minimum of the two lengths. -/
theorem c6_counterexample :
    1 ∈ (loop_trace [1, 2] [1] Op.add Accumulator.append Chooser.len
      (fun _ => 0) 0).2 ∧
    ¬ 1 < min ([1, 2] : List Nat).length ([1] : List Nat).length := by
  refine ⟨by decide, by decide⟩

/-- Claim C6 as amended: for equal-length digit sequences — the documented
invariant of well-formed problems — every index at which the loop executor
indexes `A` or `B` is below `min (len A) (len B)`; when the lengths differ the
loop may attempt an index that is not (see the counterexample). -/
theorem c6_loop_bounded_on_equal_lengths (x y : List Nat) (op : Op)
    (ac : Accumulator) (ch : Chooser) (g : Nat → Nat) (k : Nat)
    (hlen : x.length = y.length) :
    ∀ i ∈ (loop_trace x y op ac ch g k).2, i < min x.length y.length := by
  intro i hi
  rw [loop_trace] at hi
  rcases hA : applyChooser ch x g k with ⟨nr, k'⟩
  rw [hA] at hi
  cases nr with
  | none => simp at hi
  | some n =>
      have hb := mem_loopIterTrace x y op ac g n 0 [] k' i hi
      have hn : n ≤ x.length := applyChooser_le ch x g k n (by rw [hA])
      omega

theorem c6_witness :
    (0 : Nat) < min ([1, 2] : List Nat).length ([3, 4] : List Nat).length :=
  c6_loop_bounded_on_equal_lengths [1, 2] [3, 4] Op.add Accumulator.append
    Chooser.len (fun _ => 0) 0 rfl 0 (by decide)

lemma problem_contrib_penalty (c : Candidate) (g : Nat → Nat) (k : Nat)
    (p : Problem) (h : evalFaultOrInvalid c g k p) :
    (problem_contrib c g k p).1 = 999 := by
  rcases hL : loop p.1 p.2.1 c.op c.acc c.chooser g k with ⟨res, k'⟩
  rcases h with h | ⟨z, hz, hany⟩
  · rw [hL] at h
    simp only at h
    subst h
    simp [problem_contrib, hL]
  · rw [hL] at hz
    simp only at hz
    subst hz
    simp [problem_contrib, hL, hany]

lemma problem_contrib_no_penalty (c : Candidate) (g : Nat → Nat) (k : Nat)
    (p : Problem) (z : List ℚ)
    (hz : (loop p.1 p.2.1 c.op c.acc c.chooser g k).1 = some z)
    (hok : (z.any fun v => decide (9 < v)) = false) :
    (problem_contrib c g k p).1 = |list_to_int z - (p.2.2 : ℚ)| := by
  rcases hL : loop p.1 p.2.1 c.op c.acc c.chooser g k with ⟨res, k'⟩
  rw [hL] at hz
  simp only at hz
  subst hz
  simp [problem_contrib, hL, hok]

/-- Claim C1: `candidate_score` returns the running total divided by the
number of problems; a problem contributes the fixed 999 penalty exactly when
running the loop raises a fault or the produced sequence has an element
greater than 9, otherwise it contributes `abs(list_to_int Z - answer)`; and a
per-problem fault never aborts the remaining problems: the running total of
`p :: rest` is `p`'s contribution plus the total of `rest`. -/
theorem c1_candidate_score_mean (c : Candidate) (ps : List Problem)
    (g : Nat → Nat) (k : Nat) (hne : ps ≠ [])
    (hwf : ∀ p ∈ ps, WellFormedProblem p) :
    (candidate_score c ps g k).1 = runningTotal c g ps k / (ps.length : ℚ) ∧
    (∀ (g' : Nat → Nat) (k' : Nat) (p : Problem),
        evalFaultOrInvalid c g' k' p → (problem_contrib c g' k' p).1 = 999) ∧
    (∀ (g' : Nat → Nat) (k' : Nat) (p : Problem) (z : List ℚ),
        (loop p.1 p.2.1 c.op c.acc c.chooser g' k').1 = some z →
        (z.any fun v => decide (9 < v)) = false →
        (problem_contrib c g' k' p).1 = |list_to_int z - (p.2.2 : ℚ)|) ∧
    (∀ (p : Problem) (rest : List Problem) (k' : Nat),
        runningTotal c g (p :: rest) k' =
          (problem_contrib c g k' p).1 +
            runningTotal c g rest (problem_contrib c g k' p).2) := by
  refine ⟨?_, fun g' k' p h => problem_contrib_penalty c g' k' p h,
    fun g' k' p z hz hok => problem_contrib_no_penalty c g' k' p z hz hok,
    fun p rest k' => rfl⟩
  rw [candidate_score]
  simp only [foldl_scoreStep, zero_add]

theorem c1_witness :
    (candidate_score ⟨Op.add, Accumulator.append, Chooser.len⟩ [([1], [2], 3)]
        (fun _ => 0) 0).1 =
      runningTotal ⟨Op.add, Accumulator.append, Chooser.len⟩ (fun _ => 0)
        [([1], [2], 3)] 0 / (([([1], [2], 3)] : List Problem).length : ℚ) :=
  (c1_candidate_score_mean ⟨Op.add, Accumulator.append, Chooser.len⟩
    [([1], [2], 3)] (fun _ => 0) 0 (by decide) (by decide)).1

lemma insertKeyed_perm (p : Candidate × ℚ) :
    ∀ l : List (Candidate × ℚ), (insertKeyed p l).Perm (p :: l)
  | [] => List.Perm.refl _
  | q :: t => by
      rw [insertKeyed]
      split
      · exact List.Perm.refl _
      · exact ((insertKeyed_perm p t).cons q).trans (List.Perm.swap p q t)

lemma sortKeyed_perm : ∀ l : List (Candidate × ℚ), (sortKeyed l).Perm l
  | [] => List.Perm.refl _
  | p :: t => (insertKeyed_perm p (sortKeyed t)).trans ((sortKeyed_perm t).cons p)

lemma insertKeyed_sorted (p : Candidate × ℚ) :
    ∀ l : List (Candidate × ℚ),
      List.Sorted (fun a b : Candidate × ℚ => a.2 ≤ b.2) l →
      List.Sorted (fun a b : Candidate × ℚ => a.2 ≤ b.2) (insertKeyed p l)
  | [], _ => by simp [insertKeyed]
  | q :: t, h => by
      rw [insertKeyed]
      rw [List.sorted_cons] at h
      by_cases hple : p.2 ≤ q.2
      · rw [if_pos hple, List.sorted_cons]
        refine ⟨?_, List.sorted_cons.mpr h⟩
        intro b hb
        rcases List.mem_cons.mp hb with hb | hb
        · subst hb
          exact hple
        · exact le_trans hple (h.1 b hb)
      · rw [if_neg hple, List.sorted_cons]
        constructor
        · intro b hb
          have hb' := (insertKeyed_perm p t).mem_iff.mp hb
          rcases List.mem_cons.mp hb' with hb' | hb'
          · subst hb'
            exact le_of_not_le hple
          · exact h.1 b hb'
        · exact insertKeyed_sorted p t h.2

lemma sortKeyed_sorted : ∀ l : List (Candidate × ℚ),
    List.Sorted (fun a b : Candidate × ℚ => a.2 ≤ b.2) (sortKeyed l)
  | [] => List.sorted_nil
  | p :: t => insertKeyed_sorted p (sortKeyed t) (sortKeyed_sorted t)

lemma insertKeyed_filter (p : Candidate × ℚ) (q : ℚ) :
    ∀ l : List (Candidate × ℚ),
      (insertKeyed p l).filter (fun r => decide (r.2 = q)) =
        if p.2 = q then p :: l.filter (fun r => decide (r.2 = q))
        else l.filter (fun r => decide (r.2 = q))
  | [] => by
      by_cases h : p.2 = q <;> simp [insertKeyed, List.filter, h]
  | hd :: tl => by
      rw [insertKeyed]
      by_cases hple : p.2 ≤ hd.2
      · rw [if_pos hple]
        by_cases h : p.2 = q <;> simp [List.filter_cons, h]
      · rw [if_neg hple, List.filter_cons, insertKeyed_filter p q tl]
        by_cases h : p.2 = q
        · by_cases h2 : hd.2 = q
          · exact absurd (le_of_eq (h.trans h2.symm)) hple
          · simp [List.filter_cons, h, h2]
        · by_cases h2 : hd.2 = q <;> simp [List.filter_cons, h, h2]

lemma sortKeyed_filter (q : ℚ) :
    ∀ l : List (Candidate × ℚ),
      (sortKeyed l).filter (fun r => decide (r.2 = q)) =
        l.filter (fun r => decide (r.2 = q))
  | [] => rfl
  | p :: t => by
      rw [sortKeyed, insertKeyed_filter p q (sortKeyed t), sortKeyed_filter q t,
        List.filter_cons]
      by_cases h : p.2 = q <;> simp [h]

lemma score_keys_fst (ps : List Problem) (g : Nat → Nat) :
    ∀ (cands : List Candidate) (k : Nat),
      ((score_keys cands ps g k).1).map Prod.fst = cands
  | [], _ => rfl
  | c :: rest, k => by
      simp only [score_keys, List.map_cons]
      rw [score_keys_fst ps g rest _]

/-- Claim C5: `sort_candidates` returns the candidates of the population
ordered ascending by their (cached) scores, as a stable sort: it is a
permutation of the keyed population, the key sequence is sorted, and for every
score value the subsequence of entries carrying that score is unchanged (ties
keep their input order).  The driver's selection takes the first 5 of the
ranked list, and a population of fewer than 5 candidates survives whole. -/
theorem c5_selector_stable_ranking (pop : List Candidate) (ps : List Problem)
    (g : Nat → Nat) (k : Nat) :
    (sort_candidates pop ps g k).1 =
      (sortKeyed (score_keys pop ps g k).1).map Prod.fst ∧
    ((score_keys pop ps g k).1).map Prod.fst = pop ∧
    (sortKeyed (score_keys pop ps g k).1).Perm (score_keys pop ps g k).1 ∧
    List.Sorted (· ≤ ·) ((sortKeyed (score_keys pop ps g k).1).map Prod.snd) ∧
    (∀ q : ℚ,
      (sortKeyed (score_keys pop ps g k).1).filter (fun r => decide (r.2 = q)) =
        ((score_keys pop ps g k).1).filter (fun r => decide (r.2 = q))) ∧
    best pop ps g k = ((sort_candidates pop ps g k).1).take 5 ∧
    (pop.length < 5 → best pop ps g k = (sort_candidates pop ps g k).1) := by
  refine ⟨rfl, score_keys_fst ps g pop k, sortKeyed_perm _, ?_,
    fun q => sortKeyed_filter q _, rfl, ?_⟩
  · exact List.Pairwise.map Prod.snd (fun a b h => h) (sortKeyed_sorted _)
  · intro hlt
    have hlen : ((sort_candidates pop ps g k).1).length = pop.length := by
      rw [show (sort_candidates pop ps g k).1 =
            (sortKeyed (score_keys pop ps g k).1).map Prod.fst from rfl,
        List.length_map, (sortKeyed_perm _).length_eq,
        ← List.length_map _ Prod.fst, score_keys_fst ps g pop k]
    rw [best, List.take_of_length_le (by omega)]

theorem c5_witness :
    best [⟨Op.add, Accumulator.append, Chooser.zero⟩] [] (fun _ => 0) 0 =
      (sort_candidates [⟨Op.add, Accumulator.append, Chooser.zero⟩] []
        (fun _ => 0) 0).1 :=
  (c5_selector_stable_ranking [⟨Op.add, Accumulator.append, Chooser.zero⟩] []
    (fun _ => 0) 0).2.2.2.2.2.2 (by decide)

end MadAdders
